import Mathlib

/-!
Shallow embedding of the Dead Reckoning budget simulation (`src/main.py`).

Dollar amounts and rates are modelled as rationals (`ℚ`); the float
arithmetic of the program is exact at every input these theorems evaluate.
Pandas `.mean()` of an empty selection yields NaN; NaN-valued quantities are
modelled as `Option` `none` (`none` threshold compares false, as a NaN does),
and the `ValueError` that `int(NaN)` raises in `average_count_per_day`
is modelled by `evaluate_if_released` returning `none`.
Random draws (`random.randint`) enter as explicit oracle arguments.
-/

namespace DeadReckoning

/-- Constant `BUDGET_DAYS = 30`, the denominator of the budget. -/
def BUDGET_DAYS : ℕ := 30

/-- Constant `BUDGET_MONEY = 10000`, the numerator of the budget. -/
def BUDGET_MONEY : ℚ := 10000

/-- Constant `MAX_TX_AMOUNT = 500`, the max send amount we want to release. -/
def MAX_TX_AMOUNT : ℚ := 500

/-- A (blocked) transaction: its simulated day, dollar amount, and the
boolean defense flags, addressed by defense name as `getattr` does. -/
structure Trasaction where
  day : ℕ
  send_amount_usd : ℚ
  flags : String → Bool

/-- One defense: `name`, `budget_money = total budget × allocation`,
and the rolling span `budget_days`. -/
structure Defense where
  name : String
  budget_money : ℚ
  budget_days : ℕ
deriving DecidableEq

/-- Function `Defense.defense_tx`: the subset of the historical dataset where this
defense's flag is positive. -/
def Defense.defense_tx (d : Defense) (h_tx : List Trasaction) : List Trasaction :=
  h_tx.filter (fun t => t.flags d.name)

/-- Pandas-style mean of a list of amounts: `none` (NaN) on an empty
selection, otherwise sum divided by count. -/
def listMean (l : List ℚ) : Option ℚ :=
  if l.isEmpty then none else some (l.sum / l.length)

/-- Function `Defense.average_historical_send_amount`: mean send amount over the
flagged rows with `day ≥ max(day − budget_days, 0)` and
`send_amount_usd ≤ MAX_TX_AMOUNT`.  (The source applies no upper bound on
the row's day.)  `none` models the NaN a pandas mean of an empty
selection produces. -/
def Defense.average_historical_send_amount (d : Defense) (h_tx : List Trasaction)
    (day : ℕ) : Option ℚ :=
  listMean (((d.defense_tx h_tx).filter
    (fun t => decide (max (day - d.budget_days) 0 ≤ t.day) &&
              decide (t.send_amount_usd ≤ MAX_TX_AMOUNT))).map
    (·.send_amount_usd))

/-- Function `Defense.target_rate`: `budget_money / (avg × budget_days)`, rescaled by
`× 10 + 1`.  A NaN average (empty selection) propagates, hence `Option.map`. -/
def Defense.target_rate (d : Defense) (h_tx : List Trasaction) (day : ℕ) : Option ℚ :=
  (d.average_historical_send_amount h_tx day).map
    (fun a => d.budget_money / (a * (d.budget_days : ℚ)) * 10 + 1)

/-- Function `Defense.threshold`: `target_rate` when this defense flagged the
transaction, otherwise `0.0`. -/
def Defense.threshold (d : Defense) (tx : Trasaction) (h_tx : List Trasaction)
    (day : ℕ) : Option ℚ :=
  if tx.flags d.name then d.target_rate h_tx day else some 0

/-- Function `Defense.average_count_per_day`: group the flagged rows by day, count
each group, take the mean of the counts, and truncate with `int(...)`.
With no flagged rows the grouped mean is NaN and `int(NaN)` raises
`ValueError`, modelled as `none`. -/
def Defense.average_count_per_day (d : Defense) (h_tx : List Trasaction) : Option ℕ :=
  let dtx := d.defense_tx h_tx
  let days := (dtx.map (·.day)).dedup
  if days.isEmpty then none
  else some (Int.toNat
    ⌊(days.map (fun dd => (((dtx.filter (fun t => t.day == dd)).length : ℚ)))).sum /
      (days.length : ℚ)⌋)

/-- Method `Defense.random_value` draws `random.randint(0, average_count_per_day × 10)`;
this predicate characterises the values that draw can produce. -/
def possibleRandomValue (d : Defense) (h_tx : List Trasaction) (r : ℕ) : Prop :=
  ∃ c, d.average_count_per_day h_tx = some c ∧ r ≤ c * 10

/-- The Dead Reckoning budget: global cap, window, registered defenses. -/
structure Budget where
  budget_money : ℚ
  budget_days : ℕ
  defenses : List Defense
deriving DecidableEq

/-- Function `Budget.budget_allocation`: `(allocated fraction, 1 − allocated fraction)`. -/
def Budget.budget_allocation (b : Budget) : ℚ × ℚ :=
  let total_allocated := (b.defenses.map (·.budget_money)).sum / b.budget_money
  (total_allocated, 1 - total_allocated)

/-- Function `Budget.add_defense`: raises (models as `Except.error`) when the new
allocation plus the allocated fraction exceeds 1, otherwise appends
`Defense(name, allocation × budget_money, budget_days)`. -/
def Budget.add_defense (b : Budget) (name : String) (allocation : ℚ) :
    Except String Budget :=
  if allocation + (b.budget_allocation).1 > 1 then
    Except.error "allocation overflow"
  else
    Except.ok { b with defenses :=
      b.defenses ++ [⟨name, allocation * b.budget_money, b.budget_days⟩] }

/-- Function `Budget.remove_defense`: rebuilds the registry keeping the defenses whose
name differs.  The source initialises `found = False` and never sets it, so
the "not found" warning fires on every call; the returned `Bool` records
whether the warning was printed. -/
def Budget.remove_defense (b : Budget) (name : String) : Budget × Bool :=
  let temp := b.defenses.filter (fun d => d.name != name)
  let found := false
  ({ b with defenses := temp }, !found)

/-- The window spend `evaluate_if_released` checks:
`r_tx[r_tx.day >= max(day - BUDGET_DAYS, 1)].send_amount_usd.sum()`. -/
def windowSpend (day : ℕ) (r_tx : List Trasaction) : ℚ :=
  ((r_tx.filter (fun t => decide (max (day - BUDGET_DAYS) 1 ≤ t.day))).map
    (·.send_amount_usd)).sum

/-- Comparison `(random_values < thresholds).sum().astype(bool)`: elementwise;
a NaN (`none`) threshold compares false, as in IEEE arithmetic. -/
def anyBelowThreshold (random_values : List ℕ) (thresholds : List (Option ℚ)) : Bool :=
  (random_values.zip thresholds).any (fun p =>
    match p.2 with
    | some t => decide ((p.1 : ℚ) < t)
    | none => false)

/-- Function `evaluate_if_released`: thresholds and random values are computed for
every registered defense before the admission test; computing a random
value raises (`none`) when `average_count_per_day` is undefined.  Otherwise
release iff the amount is within `MAX_TX_AMOUNT`, the rolling-window spend
plus the amount stays within `budget_money`, and some draw is below its
defense's threshold. -/
def evaluate_if_released (b : Budget) (tx : Trasaction) (day : ℕ)
    (h_tx r_tx : List Trasaction) (random_values : List ℕ) : Option Bool :=
  let thresholds := b.defenses.map (fun d => d.threshold tx h_tx day)
  if (b.defenses.map (fun d => d.average_count_per_day h_tx)).all (·.isSome) then
    some (decide (tx.send_amount_usd ≤ MAX_TX_AMOUNT) &&
          decide (windowSpend day r_tx + tx.send_amount_usd ≤ b.budget_money) &&
          anyBelowThreshold random_values thresholds)
  else none

/-- Reporting function of `print_results`, the outstanding liability at a day: released rows with
`day' ∈ [max(day − BUDGET_DAYS, 1), day)`. -/
def outstanding_liability (day : ℕ) (released_tx : List Trasaction) : ℚ :=
  ((released_tx.filter (fun t =>
      decide (max (day - BUDGET_DAYS) 1 ≤ t.day) && decide (t.day < day))).map
    (·.send_amount_usd)).sum

/-- State of the released ledger in `simulate`: current day, released rows. -/
structure SimState where
  curDay : ℕ
  released : List Trasaction

/-- Reachable states of `simulate` under budget `b`: start on any day with no
releases; a generated transaction (positive triangular amount) is appended to
the released ledger with `record['day'] = day` exactly when
`evaluate_if_released` admits it; days advance one at a time.  The historical
ledger and draws are arbitrary oracles. -/
inductive Reaches (b : Budget) : SimState → Prop where
  | init (d0 : ℕ) : Reaches b ⟨d0, []⟩
  | release (s : SimState) (tx : Trasaction) (h_tx : List Trasaction)
      (draws : List ℕ) (hamt : 0 ≤ tx.send_amount_usd)
      (hev : evaluate_if_released b tx s.curDay h_tx s.released draws = some true)
      (hs : Reaches b s) : Reaches b ⟨s.curDay, s.released ++ [{ tx with day := s.curDay }]⟩
  | nextDay (s : SimState) (hs : Reaches b s) : Reaches b ⟨s.curDay + 1, s.released⟩

/-! ### Concrete fixtures -/

/-- Flags of a transaction blocked only by defense `d1`. -/
def flagsD1 : String → Bool := fun n => n == "d1"

/-- Flags of a transaction blocked only by defense `d4`. -/
def flagsD4 : String → Bool := fun n => n == "d4"

/-- A one-defense budget used to exercise `evaluate_if_released`. -/
def bOne : Budget := ⟨10000, 30, [⟨"d1", 1000, 30⟩]⟩

/-- A one-row historical ledger: day 1, $100, flagged by `d1`. -/
def hOne : List Trasaction := [⟨1, 100, flagsD1⟩]

/-- A $100 candidate transaction flagged by `d1`. -/
def txOne : Trasaction := ⟨0, 100, flagsD1⟩

/-- The global-script budget after the four registrations of `src/main.py`
(d1 = 10 %, d2 = 30 %, d3 = 55 %, d4 = 5 % of $10000 over 30 days). -/
def bFour : Budget :=
  ⟨10000, 30, [⟨"d1", 1000, 30⟩, ⟨"d2", 3000, 30⟩, ⟨"d3", 5500, 30⟩, ⟨"d4", 500, 30⟩]⟩

/-- A one-row historical ledger whose row is flagged by every defense. -/
def hAll : List Trasaction := [⟨1, 100, fun _ => true⟩]

/-- A $600 candidate transaction flagged only by `d4`. -/
def txBig : Trasaction := ⟨0, 600, flagsD4⟩

/-! ### Helper lemmas about `evaluate_if_released` -/

/-- A release verdict implies all three admission checks: the per-transaction
ceiling, the rolling-window budget check, and the stochastic test. -/
lemma eval_eq_some_true {b : Budget} {tx : Trasaction} {day : ℕ}
    {h_tx r_tx : List Trasaction} {draws : List ℕ}
    (h : evaluate_if_released b tx day h_tx r_tx draws = some true) :
    tx.send_amount_usd ≤ MAX_TX_AMOUNT ∧
    windowSpend day r_tx + tx.send_amount_usd ≤ b.budget_money ∧
    anyBelowThreshold draws (b.defenses.map (fun d => d.threshold tx h_tx day)) = true := by
  unfold evaluate_if_released at h
  split at h
  · rw [Option.some.injEq] at h
    simp only [Bool.and_eq_true, decide_eq_true_eq] at h
    exact ⟨h.1.1, h.1.2, h.2⟩
  · exact absurd h (by simp)

/-! ### C2: ceiling respected -/

/-- C2.  Ceiling respected: a transaction with `send_amount_usd` strictly above
`MAX_TX_AMOUNT` is never released, for any budget, day, ledgers and draws; and
whenever the random draws are computable (every defense has a defined
`average_count_per_day`) the verdict is exactly hold (`false`). -/
theorem ceiling_respected (b : Budget) (tx : Trasaction) (day : ℕ)
    (h_tx r_tx : List Trasaction) (draws : List ℕ)
    (h : MAX_TX_AMOUNT < tx.send_amount_usd) :
    evaluate_if_released b tx day h_tx r_tx draws ≠ some true ∧
    (((b.defenses.map (fun d => d.average_count_per_day h_tx)).all (·.isSome)) = true →
      evaluate_if_released b tx day h_tx r_tx draws = some false) := by
  constructor
  · intro heq
    exact absurd (eval_eq_some_true heq).1 (not_le.2 h)
  · intro hc
    unfold evaluate_if_released
    rw [if_pos hc, Option.some.injEq]
    simp [decide_eq_false_iff_not, not_le.2 h]

/-- Witness for C2 at the spec's scenario: the $600 transaction flagged only
by `d4`, with `MAX_TX_AMOUNT = 500` and all four defenses registered, gets
verdict hold. -/
theorem ceiling_respected_witness :
    MAX_TX_AMOUNT < txBig.send_amount_usd ∧
    evaluate_if_released bFour txBig 31 hAll [] [0, 0, 0, 0] = some false := by
  refine ⟨by norm_num [MAX_TX_AMOUNT, txBig], ?_⟩
  refine (ceiling_respected bFour txBig 31 hAll [] [0, 0, 0, 0]
    (by norm_num [MAX_TX_AMOUNT, txBig])).2 ?_
  norm_num [bFour, hAll, Defense.average_count_per_day, Defense.defense_tx,
    List.filter, List.dedup, List.pwFilter]

/-! ### C4: empty statistical window -/

/-- C4.  With an empty `HistoricalLedger`, `average_historical_send_amount`
and `target_rate` are NaN-valued (`none`), the threshold of a flagging
defense is *not* `0`, and `evaluate_if_released` raises (`none`) inside
`average_count_per_day` (`int(NaN)` is a `ValueError`) instead of returning
hold. -/
theorem empty_ledger_error :
    Defense.target_rate ⟨"d4", 500, 30⟩ [] 0 = none ∧
    Defense.average_count_per_day ⟨"d4", 500, 30⟩ [] = none ∧
    Defense.threshold ⟨"d4", 500, 30⟩ ⟨0, 100, flagsD4⟩ [] 0 ≠ some 0 ∧
    evaluate_if_released ⟨10000, 30, [⟨"d4", 500, 30⟩]⟩ ⟨0, 100, flagsD4⟩ 0 [] [] [0] =
      none := by
  refine ⟨rfl, rfl, ?_, rfl⟩
  simp [Defense.threshold, Defense.target_rate, Defense.average_historical_send_amount,
    Defense.defense_tx, listMean, flagsD4]

/-! ### C5: the historical-average window filter -/

/-- The claim's reading of `average_historical_send_amount` (modelled from the
spec's words): same filter, but rows with `ledger_day ≥ day` excluded, i.e.
`ledger_day ∈ [max(day − window_days, 0), day)`. -/
def Defense.average_historical_send_amount_claimed (d : Defense)
    (h_tx : List Trasaction) (day : ℕ) : Option ℚ :=
  listMean (((d.defense_tx h_tx).filter
    (fun t => decide (max (day - d.budget_days) 0 ≤ t.day) && decide (t.day < day) &&
              decide (t.send_amount_usd ≤ MAX_TX_AMOUNT))).map
    (·.send_amount_usd))

/-- A two-row ledger, both rows flagged by `d1`: one at day 5 ($100), one at
day 4 ($300). -/
def hWin : List Trasaction := [⟨5, 100, flagsD1⟩, ⟨4, 300, flagsD1⟩]

/-- Counterexample to C5: evaluating at `day = 5`, the source includes the
day-5 row (mean $200) whereas the claimed `[max(day − window, 0), day)`
window would exclude it (mean $300). -/
theorem avg_window_counterexample :
    Defense.average_historical_send_amount ⟨"d1", 1000, 30⟩ hWin 5 = some 200 ∧
    Defense.average_historical_send_amount_claimed ⟨"d1", 1000, 30⟩ hWin 5 = some 300 ∧
    Defense.average_historical_send_amount ⟨"d1", 1000, 30⟩ hWin 5 ≠
      Defense.average_historical_send_amount_claimed ⟨"d1", 1000, 30⟩ hWin 5 := by
  refine ⟨?_, ?_, ?_⟩ <;>
    norm_num [Defense.average_historical_send_amount,
      Defense.average_historical_send_amount_claimed, Defense.defense_tx, hWin, flagsD1,
      listMean, MAX_TX_AMOUNT, List.filter]

/-- The amended description of the window filter: flagged rows with
`ledger_day ≥ max(day − window_days, 0)` and amount `≤ MAX_TX_AMOUNT`,
with no upper bound on the row's day. -/
def Defense.average_historical_send_amount_amended (d : Defense)
    (h_tx : List Trasaction) (day : ℕ) : Option ℚ :=
  listMean ((h_tx.filter
    (fun t => t.flags d.name && decide (max (day - d.budget_days) 0 ≤ t.day) &&
              decide (t.send_amount_usd ≤ MAX_TX_AMOUNT))).map
    (·.send_amount_usd))

/-- C5 (amended).  `average_historical_send_amount` is the mean over exactly
the rows that are flagged, at least `max(day − window_days, 0)` days old—with
no exclusion of rows at `ledger_day ≥ day`—and within `MAX_TX_AMOUNT`. -/
theorem avg_window_filter_amended (d : Defense) (h_tx : List Trasaction) (day : ℕ) :
    d.average_historical_send_amount h_tx day =
      d.average_historical_send_amount_amended h_tx day := by
  unfold Defense.average_historical_send_amount Defense.average_historical_send_amount_amended
    Defense.defense_tx
  rw [List.filter_filter]
  refine congrArg listMean (congrArg (List.map _) (List.filter_congr ?_))
  intro t _
  cases h1 : t.flags d.name <;>
    cases h2 : decide (max (day - d.budget_days) 0 ≤ t.day) <;>
      cases h3 : decide (t.send_amount_usd ≤ MAX_TX_AMOUNT) <;> simp [h1, h2, h3]

/-! ### C3: release implies flagged -/

/-- C3.  If `evaluate_if_released` releases, then some registered defense
flagged the transaction, its threshold is strictly positive, and its random
draw (a non-negative integer) lies strictly below that threshold; an
unflagged defense's threshold is `0` and can never pass the test. -/
theorem release_implies_flagged (b : Budget) (tx : Trasaction) (day : ℕ)
    (h_tx r_tx : List Trasaction) (draws : List ℕ)
    (h : evaluate_if_released b tx day h_tx r_tx draws = some true) :
    ∃ (i : ℕ) (hi : i < b.defenses.length) (hr : i < draws.length) (t : ℚ),
      tx.flags (b.defenses.get ⟨i, hi⟩).name = true ∧
      (b.defenses.get ⟨i, hi⟩).threshold tx h_tx day = some t ∧
      0 < t ∧ ((draws.get ⟨i, hr⟩ : ℕ) : ℚ) < t := by
  obtain ⟨-, -, hany⟩ := eval_eq_some_true h
  unfold anyBelowThreshold at hany
  rw [List.any_eq_true] at hany
  obtain ⟨p, hp, hpred⟩ := hany
  rw [List.mem_iff_getElem] at hp
  obtain ⟨i, hilen, hip⟩ := hp
  have hr : i < draws.length := List.lt_length_left_of_zip hilen
  have hmap : i < (b.defenses.map (fun d => d.threshold tx h_tx day)).length :=
    List.lt_length_right_of_zip hilen
  have hi : i < b.defenses.length := by simpa using hmap
  rw [List.getElem_zip] at hip
  subst hip
  have hpred' : (match (b.defenses.get ⟨i, hi⟩).threshold tx h_tx day with
      | some t => decide ((draws.get ⟨i, hr⟩ : ℚ) < t)
      | none => false) = true := by
    simpa only [List.get_eq_getElem, List.getElem_map] using hpred
  refine ⟨i, hi, hr, ?_⟩
  rcases hth : (b.defenses.get ⟨i, hi⟩).threshold tx h_tx day with _ | t
  · rw [hth] at hpred'
    exact absurd hpred' (by simp)
  · rw [hth] at hpred'
    have hlt : ((draws.get ⟨i, hr⟩ : ℕ) : ℚ) < t := of_decide_eq_true hpred'
    have hpos : 0 < t := lt_of_le_of_lt (by positivity) hlt
    have hflag : tx.flags (b.defenses.get ⟨i, hi⟩).name = true := by
      by_contra hf
      rw [Bool.not_eq_true] at hf
      unfold Defense.threshold at hth
      rw [hf] at hth
      simp only [Bool.false_eq_true, if_false, Option.some.injEq] at hth
      exact lt_irrefl t (hth ▸ hpos)
    exact ⟨t, hflag, rfl, hpos, hlt⟩

/-- Witness for C3 at a concrete release: the $100 `d1`-flagged transaction
admitted by `bOne` on day 31. -/
theorem release_implies_flagged_witness :
    ∃ (i : ℕ) (hi : i < bOne.defenses.length) (hr : i < [0].length) (t : ℚ),
      txOne.flags (bOne.defenses.get ⟨i, hi⟩).name = true ∧
      (bOne.defenses.get ⟨i, hi⟩).threshold txOne hOne 31 = some t ∧
      0 < t ∧ (([0].get ⟨i, hr⟩ : ℕ) : ℚ) < t :=
  release_implies_flagged bOne txOne 31 hOne [] [0] (by
    norm_num [evaluate_if_released, bOne, txOne, hOne, flagsD1, windowSpend,
      anyBelowThreshold, Defense.threshold, Defense.target_rate,
      Defense.average_historical_send_amount, Defense.average_count_per_day,
      Defense.defense_tx, listMean, MAX_TX_AMOUNT, List.filter, List.dedup, List.pwFilter])

/-! ### C7: remove_defense -/

/-- A budget holding two defenses that share the name `"a"`. -/
def bDup : Budget := ⟨10000, 30, [⟨"a", 1, 30⟩, ⟨"a", 2, 30⟩]⟩

/-- A budget holding one defense named `"x"`. -/
def bSolo : Budget := ⟨10000, 30, [⟨"x", 1, 30⟩]⟩

/-- Counterexample to C7: removing `"a"` from a registry holding two
defenses named `"a"` removes *both* (the claim says the later one stays),
and the "not found" warning fires even though a match existed (the claim
says the warning is surfaced exactly when no match exists). -/
theorem remove_defense_counterexample :
    (bDup.remove_defense "a").1.defenses = [] ∧
    (bDup.remove_defense "a").1.defenses ≠ [⟨"a", 2, 30⟩] ∧
    (bDup.remove_defense "a").2 = true ∧
    ¬ ((bDup.remove_defense "a").2 = false) := by
  refine ⟨rfl, ?_, rfl, ?_⟩
  · show ([] : List Defense) ≠ [⟨"a", 2, 30⟩]
    simp
  · show ¬ (true = false)
    simp

/-- C7 (amended).  `remove_defense` keeps exactly the defenses whose name
differs (so it removes *every* match, preserving the order of the rest), the
registry is untouched when nothing matches, and the diagnostic warning is
surfaced on every call—matching or not—because the `found` flag is never
set. -/
theorem remove_defense_behaviour (b : Budget) (name : String) :
    ((b.remove_defense name).1.defenses.Sublist b.defenses) ∧
    (∀ d ∈ (b.remove_defense name).1.defenses, d.name ≠ name) ∧
    (∀ d ∈ b.defenses, d.name ≠ name → d ∈ (b.remove_defense name).1.defenses) ∧
    ((b.remove_defense name).2 = true) ∧
    ((∀ d ∈ b.defenses, d.name ≠ name) → (b.remove_defense name).1 = b) := by
  refine ⟨List.filter_sublist _, ?_, ?_, rfl, ?_⟩
  · intro d hd
    rw [show (b.remove_defense name).1.defenses = b.defenses.filter
      (fun d => d.name != name) from rfl, List.mem_filter] at hd
    simpa [bne_iff_ne] using hd.2
  · intro d hd hne
    rw [show (b.remove_defense name).1.defenses = b.defenses.filter
      (fun d => d.name != name) from rfl]
    exact List.mem_filter.2 ⟨hd, by simpa [bne_iff_ne] using hne⟩
  · intro hall
    have hfix : b.defenses.filter (fun d => d.name != name) = b.defenses :=
      List.filter_eq_self.2 (fun d hd => by simpa [bne_iff_ne] using hall d hd)
    show ({ b with defenses := b.defenses.filter (fun d => d.name != name) } : Budget) = b
    rw [hfix]

/-- Witness for C7 (amended): removing an absent name from `bSolo` leaves the
budget unchanged and still prints the warning. -/
theorem remove_defense_behaviour_witness :
    (bSolo.remove_defense "y").1 = bSolo ∧ (bSolo.remove_defense "y").2 = true := by
  refine ⟨(remove_defense_behaviour bSolo "y").2.2.2.2 ?_,
    (remove_defense_behaviour bSolo "y").2.2.2.1⟩
  intro d hd
  have hx : d = ⟨"x", 1, 30⟩ := by simpa [bSolo] using hd
  rw [hx]
  simp

/-! ### C10: a zero-allocation defense can still release -/

/-- C10.  A defense with `budget_money = 0` whose qualifying historical window
is non-empty has `target_rate = 0 × 10 + 1 = 1`, so its threshold for a
transaction it flagged is `1 > 0`; and since `random_value` can draw `0`,
such a defense alone can make `evaluate_if_released` release (shown on a
concrete one-defense budget with zero allocation). -/
theorem zero_allocation_can_release (d : Defense) (tx : Trasaction)
    (h_tx : List Trasaction) (day : ℕ) (hbm : d.budget_money = 0)
    (hflag : tx.flags d.name = true)
    (hsome : (d.average_historical_send_amount h_tx day).isSome = true) :
    d.threshold tx h_tx day = some 1 ∧
    possibleRandomValue ⟨"d1", 0, 30⟩ hOne 0 ∧
    evaluate_if_released ⟨10000, 30, [⟨"d1", 0, 30⟩]⟩ txOne 31 hOne [] [0] = some true := by
  refine ⟨?_, ?_, ?_⟩
  · obtain ⟨a, ha⟩ := Option.isSome_iff_exists.1 hsome
    unfold Defense.threshold Defense.target_rate
    rw [if_pos hflag, ha]
    simp [hbm]
  · refine ⟨1, ?_, by norm_num⟩
    norm_num [Defense.average_count_per_day, Defense.defense_tx, hOne, flagsD1,
      List.filter, List.dedup, List.pwFilter]
  · norm_num [evaluate_if_released, txOne, hOne, flagsD1, windowSpend, anyBelowThreshold,
      Defense.threshold, Defense.target_rate, Defense.average_historical_send_amount,
      Defense.average_count_per_day, Defense.defense_tx, listMean, MAX_TX_AMOUNT,
      List.filter, List.dedup, List.pwFilter]

/-- Witness for C10: the zero-budget defense `d1` on the one-row ledger has
threshold exactly `1` for the flagged $100 transaction. -/
theorem zero_allocation_can_release_witness :
    Defense.threshold ⟨"d1", 0, 30⟩ txOne hOne 31 = some 1 :=
  (zero_allocation_can_release ⟨"d1", 0, 30⟩ txOne hOne 31 rfl rfl (by
    norm_num [Defense.average_historical_send_amount, Defense.defense_tx, hOne, flagsD1,
      listMean, MAX_TX_AMOUNT, List.filter])).1

/-! ### C8: the full-allocation scenario -/

/-- C8.  Registering d1 = 0.10, d2 = 0.30, d3 = 0.55, d4 = 0.05 on
`Budget(10000, 30)` succeeds at every step, yields allocation `(1, 0)`,
and a fifth `add_defense("d5", 0.01)` fails with the allocation-overflow
error.  (The float arithmetic of the source is exact at each of these
comparisons, so the rational model is faithful here.) -/
theorem full_allocation_scenario :
    (((Budget.mk 10000 30 []).add_defense "d1" 0.1).bind
      (fun b => (b.add_defense "d2" 0.3).bind
        (fun b => (b.add_defense "d3" 0.55).bind
          (fun b => b.add_defense "d4" 0.05)))) = Except.ok bFour ∧
    bFour.budget_allocation = (1, 0) ∧
    ∃ e, bFour.add_defense "d5" 0.01 = Except.error e := by
  refine ⟨?_, ?_, "allocation overflow", ?_⟩ <;>
    norm_num [Budget.add_defense, Budget.budget_allocation, bFour, Except.bind]

/-! ### C9: average_count_per_day -/

/-- Each per-key filter length is a count in the mapped list. -/
lemma length_filter_eq_count {α β : Type} [DecidableEq β] (f : α → β) (l : List α) (b : β) :
    (l.filter (fun a => f a == b)).length = (l.map f).count b := by
  rw [← List.countP_eq_length_filter, List.count_eq_countP, List.countP_map]
  rfl

/-- Partition identity: summing, over the distinct keys of a list, the number
of elements carrying each key recovers the list's length. -/
lemma sum_dedup_filter_length {α β : Type} [DecidableEq β] (f : α → β) (l : List α) :
    (((l.map f).dedup).map (fun b => (l.filter (fun a => f a == b)).length)).sum =
      l.length := by
  have h2 : (((l.map f).dedup).map (fun b => (l.filter (fun a => f a == b)).length)).sum =
      (((l.map f).dedup).map (fun b => (l.map f).count b)).sum := by
    exact congrArg List.sum (List.map_congr_left (fun b _ => length_filter_eq_count f l b))
  have h3 : ((l.map f).dedup).toFinset = (l.map f).toFinset :=
    List.toFinset.ext (fun x => by simp [List.mem_dedup])
  calc (((l.map f).dedup).map (fun b => (l.filter (fun a => f a == b)).length)).sum
      = (((l.map f).dedup).map (fun b => (l.map f).count b)).sum := h2
    _ = ∑ b in ((l.map f).dedup).toFinset, (l.map f).count b :=
        (List.sum_toFinset _ (List.nodup_dedup _)).symm
    _ = ∑ b in (l.map f).toFinset, (l.map f).count b := by rw [h3]
    _ = (l.map f).length := List.sum_toFinset_count_eq_length _
    _ = l.length := List.length_map _ _

/-- The claim's reading of `average_count_per_day` (modelled from the spec's
words): the exact mean over *all* days present in the ledger of the number of
flagged transactions on that day, a day with zero flagged transactions
contributing a count of `0`. -/
def Defense.average_count_per_day_claimed (d : Defense) (h_tx : List Trasaction) :
    Option ℚ :=
  let days := (h_tx.map (·.day)).dedup
  if days.isEmpty then none
  else some ((days.map
    (fun dd => (((d.defense_tx h_tx).filter (fun t => t.day == dd)).length : ℚ))).sum /
    (days.length : ℚ))

/-- A two-row ledger: a `d1`-flagged row on day 1, an unflagged row on day 2. -/
def hCnt : List Trasaction := [⟨1, 100, flagsD1⟩, ⟨2, 100, fun _ => false⟩]

/-- Counterexample to C9: with one flagged transaction on day 1 and none on
day 2, the source computes `int(mean over {day 1}) = 1`, whereas the mean
taken over all days present in the ledger (day 2 contributing 0) is `1/2`. -/
theorem avg_count_counterexample :
    Defense.average_count_per_day ⟨"d1", 1000, 30⟩ hCnt = some 1 ∧
    Defense.average_count_per_day_claimed ⟨"d1", 1000, 30⟩ hCnt = some (1/2) ∧
    (Defense.average_count_per_day ⟨"d1", 1000, 30⟩ hCnt).map (fun n => (n : ℚ)) ≠
      Defense.average_count_per_day_claimed ⟨"d1", 1000, 30⟩ hCnt := by
  refine ⟨?_, ?_, ?_⟩ <;>
    norm_num [Defense.average_count_per_day, Defense.average_count_per_day_claimed,
      Defense.defense_tx, hCnt, flagsD1, List.filter_cons, List.filter_nil,
      List.dedup, List.pwFilter]

/-- Cast of the partition identity to `ℚ`. -/
lemma sum_dedup_filter_length_cast {α β : Type} [DecidableEq β] (f : α → β) (l : List α) :
    (((l.map f).dedup).map (fun b => ((l.filter (fun a => f a == b)).length : ℚ))).sum =
      (l.length : ℚ) := by
  calc (((l.map f).dedup).map (fun b => ((l.filter (fun a => f a == b)).length : ℚ))).sum
      = ((((l.map f).dedup).map (fun b => (l.filter (fun a => f a == b)).length)).map
          (fun n : ℕ => (n : ℚ))).sum := by rw [List.map_map]; rfl
    _ = (((((l.map f).dedup).map (fun b => (l.filter (fun a => f a == b)).length)).sum : ℕ)
          : ℚ) := (Nat.cast_list_sum _).symm
    _ = (l.length : ℚ) := by rw [sum_dedup_filter_length]

/-- C9 (amended).  When the flagged subset is non-empty,
`average_count_per_day` is the integer truncation of the mean over only the
days that have at least one flagged transaction — equivalently
`⌊flagged-row count / number-of-flagged-days⌋`; days present in the ledger
with zero flagged transactions contribute nothing. -/
theorem avg_count_amended (d : Defense) (h_tx : List Trasaction)
    (hne : d.defense_tx h_tx ≠ []) :
    d.average_count_per_day h_tx =
      some (Int.toNat ⌊((d.defense_tx h_tx).length : ℚ) /
        (((d.defense_tx h_tx).map (·.day)).dedup.length : ℚ)⌋) := by
  unfold Defense.average_count_per_day
  have hdays : ¬ (((d.defense_tx h_tx).map (·.day)).dedup.isEmpty = true) := by
    rw [List.isEmpty_iff]
    intro hemp
    have hmapnil : (d.defense_tx h_tx).map (·.day) = [] := (List.dedup_eq_nil _).1 hemp
    exact hne (List.map_eq_nil_iff.1 hmapnil)
  rw [if_neg hdays, Option.some.injEq,
    sum_dedup_filter_length_cast (fun t : Trasaction => t.day) (d.defense_tx h_tx)]

/-- Witness for C9 (amended) on the one-row ledger: one flagged row on one
day gives `⌊1 / 1⌋ = 1`. -/
theorem avg_count_amended_witness :
    Defense.average_count_per_day ⟨"d1", 1000, 30⟩ hOne =
      some (Int.toNat ⌊((Defense.defense_tx ⟨"d1", 1000, 30⟩ hOne).length : ℚ) /
        (((Defense.defense_tx ⟨"d1", 1000, 30⟩ hOne).map (·.day)).dedup.length : ℚ)⌋) :=
  avg_count_amended ⟨"d1", 1000, 30⟩ hOne (by
    simp [Defense.defense_tx, hOne, flagsD1, List.filter])

/-! ### C6: the allocation invariant -/

/-- Sum of a filtered, mapped list is monotone in the filter when the mapped
values are non-negative. -/
lemma sum_map_filter_le_of_imp {α : Type} (f : α → ℚ) (p q : α → Bool) (l : List α)
    (himp : ∀ a ∈ l, p a = true → q a = true) (h0 : ∀ a ∈ l, 0 ≤ f a) :
    ((l.filter p).map f).sum ≤ ((l.filter q).map f).sum := by
  induction l with
  | nil => simp
  | cons a l ih =>
    have ih' := ih (fun x hx => himp x (List.mem_cons_of_mem a hx))
      (fun x hx => h0 x (List.mem_cons_of_mem a hx))
    have h0a := h0 a (List.mem_cons_self a l)
    rcases hq : q a with _ | _
    · have hp : p a = false := by
        rcases hp : p a with _ | _
        · rfl
        · exact absurd (himp a (List.mem_cons_self a l) hp) (by simp [hq])
      simpa [List.filter_cons, hp, hq] using ih'
    · rcases hp : p a with _ | _
      · simp only [List.filter_cons, hp, hq, if_false, if_true, cond_false, cond_true]
        calc ((l.filter p).map f).sum ≤ ((l.filter q).map f).sum := ih'
          _ ≤ f a + ((l.filter q).map f).sum := le_add_of_nonneg_left h0a
          _ = ((a :: l.filter q).map f).sum := by simp
      · simp only [List.filter_cons, hp, hq, if_true, cond_true]
        calc ((a :: l.filter p).map f).sum = f a + ((l.filter p).map f).sum := by simp
          _ ≤ f a + ((l.filter q).map f).sum := by exact add_le_add_left ih' _
          _ = ((a :: l.filter q).map f).sum := by simp

/-- Dropping elements (filtering) cannot increase a sum of non-negative
mapped values. -/
lemma sum_map_filter_le {α : Type} (f : α → ℚ) (p : α → Bool) (l : List α)
    (h0 : ∀ a ∈ l, 0 ≤ f a) :
    ((l.filter p).map f).sum ≤ (l.map f).sum := by
  have h := sum_map_filter_le_of_imp f p (fun _ => true) l (fun a _ _ => rfl) h0
  simpa using h

/-- Budget states reachable by the registry operations: a fresh budget with a
positive cap, `add_defense` registrations with non-negative allocation
fractions (the data model's `allocation_fraction ∈ [0, 1]`), and
`remove_defense` calls. -/
inductive BudgetReach : Budget → Prop where
  | init (money : ℚ) (days : ℕ) (h : 0 < money) : BudgetReach ⟨money, days, []⟩
  | add (b b' : Budget) (name : String) (alloc : ℚ) (h0 : 0 ≤ alloc)
      (hadd : b.add_defense name alloc = Except.ok b') (hb : BudgetReach b) :
      BudgetReach b'
  | remove (b : Budget) (name : String) (hb : BudgetReach b) :
      BudgetReach (b.remove_defense name).1

/-- Inductive invariant of the registry: positive cap, non-negative shares,
and total allocated dollars within the cap. -/
lemma budgetReach_invariant (b : Budget) (hb : BudgetReach b) :
    0 < b.budget_money ∧ (∀ d ∈ b.defenses, 0 ≤ d.budget_money) ∧
    (b.defenses.map (·.budget_money)).sum ≤ b.budget_money := by
  induction hb with
  | init money days h => exact ⟨h, by simp, by simp; positivity⟩
  | add b b' name alloc h0 hadd hb ih =>
    obtain ⟨hm, hnn, hsum⟩ := ih
    unfold Budget.add_defense at hadd
    split at hadd
    · exact absurd hadd (by simp)
    · rename ¬ _ > 1 => hle
      rw [Except.ok.injEq] at hadd
      subst hadd
      rw [not_lt] at hle
      unfold Budget.budget_allocation at hle
      refine ⟨hm, ?_, ?_⟩
      · intro d hd
        rcases List.mem_append.1 hd with hd | hd
        · exact hnn d hd
        · rw [List.mem_singleton.1 hd]
          exact mul_nonneg h0 (le_of_lt hm)
      · rw [List.map_append, List.sum_append]
        simp only [List.map_cons, List.map_nil, List.sum_cons, List.sum_nil, add_zero]
        have hM : b.budget_money ≠ 0 := ne_of_gt hm
        have := mul_le_mul_of_nonneg_right hle (le_of_lt hm)
        rw [add_mul, one_mul, div_mul_cancel₀ _ hM] at this
        linarith
  | remove b name hb ih =>
    obtain ⟨hm, hnn, hsum⟩ := ih
    refine ⟨hm, ?_, ?_⟩
    · intro d hd
      exact hnn d (List.mem_of_mem_filter hd)
    · calc (((b.defenses.filter (fun d => d.name != name)).map (·.budget_money)).sum)
          ≤ ((b.defenses.map (·.budget_money)).sum) :=
            sum_map_filter_le _ _ _ hnn
        _ ≤ b.budget_money := hsum

/-- C6.  For every reachable budget state the registered defenses' allocated
dollars sum to at most `budget_money`; a successful `add_defense` appends
exactly `Defense(name, allocation × budget_money, budget_days)`; and when the
new allocation plus the allocated fraction exceeds 1, `add_defense` fails
with the allocation-overflow error, producing no modified registry. -/
theorem allocation_invariant (b : Budget) (hb : BudgetReach b) :
    (b.defenses.map (·.budget_money)).sum ≤ b.budget_money ∧
    (∀ (name : String) (alloc : ℚ) (b' : Budget),
      b.add_defense name alloc = Except.ok b' →
        b'.defenses = b.defenses ++ [⟨name, alloc * b.budget_money, b.budget_days⟩]) ∧
    (∀ (name : String) (alloc : ℚ), alloc + (b.budget_allocation).1 > 1 →
        ∃ e, b.add_defense name alloc = Except.error e) := by
  refine ⟨(budgetReach_invariant b hb).2.2, ?_, ?_⟩
  · intro name alloc b' hok
    unfold Budget.add_defense at hok
    split at hok
    · exact absurd hok (by simp)
    · rw [Except.ok.injEq] at hok
      rw [← hok]
  · intro name alloc hover
    refine ⟨"allocation overflow", ?_⟩
    unfold Budget.add_defense
    rw [if_pos hover]

/-- Witness for C6: the budget reached by registering `d1` at 10 % on a fresh
$10000 budget satisfies the allocation bound. -/
theorem allocation_invariant_witness :
    (bOne.defenses.map (·.budget_money)).sum ≤ bOne.budget_money :=
  (allocation_invariant bOne
    (BudgetReach.add ⟨10000, 30, []⟩ bOne "d1" 0.1 (by norm_num)
      (by norm_num [Budget.add_defense, Budget.budget_allocation, bOne])
      (BudgetReach.init 10000 30 (by norm_num)))).1

/-! ### C1: the rolling budget cap is an invariant of the simulation -/

/-- Appending one released row adds its amount to the window spend exactly
when the row's day lies in the window. -/
lemma windowSpend_append (day : ℕ) (r : List Trasaction) (e : Trasaction) :
    windowSpend day (r ++ [e]) = windowSpend day r +
      (if max (day - BUDGET_DAYS) 1 ≤ e.day then e.send_amount_usd else 0) := by
  unfold windowSpend
  rw [List.filter_append, List.map_append, List.sum_append]
  simp only [List.filter_cons, List.filter_nil, decide_eq_true_eq]
  by_cases h : max (day - BUDGET_DAYS) 1 ≤ e.day
  · rw [if_pos h, if_pos h]
    simp
  · rw [if_neg h, if_neg h]
    simp

/-- Appending one released row adds its amount to the outstanding liability
exactly when the row's day lies in the half-open reporting window. -/
lemma outstanding_append (day : ℕ) (r : List Trasaction) (e : Trasaction) :
    outstanding_liability day (r ++ [e]) = outstanding_liability day r +
      (if max (day - BUDGET_DAYS) 1 ≤ e.day ∧ e.day < day then e.send_amount_usd else 0) := by
  unfold outstanding_liability
  rw [List.filter_append, List.map_append, List.sum_append]
  simp only [List.filter_cons, List.filter_nil, Bool.and_eq_true, decide_eq_true_eq]
  by_cases h : max (day - BUDGET_DAYS) 1 ≤ e.day ∧ e.day < day
  · rw [if_pos h, if_pos h]
    simp
  · rw [if_neg h, if_neg h]
    simp

/-- As the day advances the window's lower cutoff only grows, so the window
spend of a fixed ledger of non-negative amounts can only shrink. -/
lemma windowSpend_antitone {r : List Trasaction} (h0 : ∀ t ∈ r, 0 ≤ t.send_amount_usd)
    {c d : ℕ} (hcd : c ≤ d) : windowSpend d r ≤ windowSpend c r := by
  unfold windowSpend
  refine sum_map_filter_le_of_imp _ _ _ r ?_ h0
  intro t _ hp
  rw [decide_eq_true_eq] at hp ⊢
  exact le_trans (max_le_max (Nat.sub_le_sub_right hcd _) le_rfl) hp

/-- The reporting window at a later day is contained in the admission-check
window at an earlier day, so its liability is bounded by that window spend. -/
lemma outstanding_le_windowSpend {r : List Trasaction}
    (h0 : ∀ t ∈ r, 0 ≤ t.send_amount_usd) {c d : ℕ} (hcd : c ≤ d) :
    outstanding_liability d r ≤ windowSpend c r := by
  unfold outstanding_liability windowSpend
  refine sum_map_filter_le_of_imp _ _ _ r ?_ h0
  intro t _ hp
  rw [Bool.and_eq_true, decide_eq_true_eq, decide_eq_true_eq] at hp
  rw [decide_eq_true_eq]
  exact le_trans (max_le_max (Nat.sub_le_sub_right hcd _) le_rfl) hp.1

/-- Inductive invariant of the released ledger in `simulate`: non-negative
amounts, window spend within the cap at the current and every later day, and
the reported outstanding liability within the cap at every day. -/
lemma reaches_invariant (b : Budget) (hb : 0 ≤ b.budget_money) (s : SimState)
    (hs : Reaches b s) :
    (∀ t ∈ s.released, 0 ≤ t.send_amount_usd) ∧
    (∀ d, s.curDay ≤ d → windowSpend d s.released ≤ b.budget_money) ∧
    (∀ d, outstanding_liability d s.released ≤ b.budget_money) := by
  induction hs with
  | init d0 =>
    refine ⟨by simp, fun d _ => ?_, fun d => ?_⟩ <;>
      simpa [windowSpend, outstanding_liability] using hb
  | release s tx h_tx draws hamt hev hs ih =>
    obtain ⟨ih0, ihW, ihO⟩ := ih
    have hcheck := (eval_eq_some_true hev).2.1
    have he : ({ tx with day := s.curDay } : Trasaction).day = s.curDay := rfl
    have he2 : ({ tx with day := s.curDay } : Trasaction).send_amount_usd =
      tx.send_amount_usd := rfl
    refine ⟨?_, ?_, ?_⟩
    · intro t ht
      rcases List.mem_append.1 ht with ht | ht
      · exact ih0 t ht
      · rw [List.mem_singleton.1 ht, he2]
        exact hamt
    · intro d hd
      rw [windowSpend_append, he, he2]
      by_cases hc : max (d - BUDGET_DAYS) 1 ≤ s.curDay
      · rw [if_pos hc]
        calc windowSpend d s.released + tx.send_amount_usd
            ≤ windowSpend s.curDay s.released + tx.send_amount_usd :=
              add_le_add_right (windowSpend_antitone ih0 hd) _
          _ ≤ b.budget_money := hcheck
      · rw [if_neg hc, add_zero]
        exact ihW d hd
    · intro d
      rw [outstanding_append, he, he2]
      by_cases hc : max (d - BUDGET_DAYS) 1 ≤ s.curDay ∧ s.curDay < d
      · rw [if_pos hc]
        calc outstanding_liability d s.released + tx.send_amount_usd
            ≤ windowSpend s.curDay s.released + tx.send_amount_usd :=
              add_le_add_right (outstanding_le_windowSpend ih0 (le_of_lt hc.2)) _
          _ ≤ b.budget_money := hcheck
      · rw [if_neg hc, add_zero]
        exact ihO d
  | nextDay s hs ih =>
    exact ⟨ih.1, fun d hd => ih.2.1 d (le_trans (Nat.le_succ _) hd), ih.2.2⟩

/-- C1.  Budget cap invariant: in every reachable state of the simulation
(non-negative cap), the admission-check rolling-window sum of released
amounts is at most `budget_money` at the current and every later day, and
the reported outstanding liability is at most `budget_money` at *every*
day; `evaluate_if_released` admits only when the window spend plus the new
amount stays within the cap, and advancing the day only drops old releases
from the window. -/
theorem budget_cap_invariant (b : Budget) (hb : 0 ≤ b.budget_money)
    (s : SimState) (hs : Reaches b s) :
    (∀ d, s.curDay ≤ d → windowSpend d s.released ≤ b.budget_money) ∧
    (∀ d, outstanding_liability d s.released ≤ b.budget_money) :=
  ⟨(reaches_invariant b hb s hs).2.1, (reaches_invariant b hb s hs).2.2⟩

/-- Witness for C1: after releasing the $100 transaction on day 31 and
advancing to day 32, both window metrics stay within the $10000 cap. -/
theorem budget_cap_invariant_witness :
    windowSpend 32 [({ txOne with day := 31 } : Trasaction)] ≤ bOne.budget_money ∧
    outstanding_liability 40 [({ txOne with day := 31 } : Trasaction)] ≤
      bOne.budget_money := by
  have h1 : Reaches bOne ⟨31, []⟩ := Reaches.init 31
  have h2 : Reaches bOne ⟨31, [] ++ [{ txOne with day := 31 }]⟩ :=
    Reaches.release ⟨31, []⟩ txOne hOne [0] (by norm_num [txOne]) (by
      norm_num [evaluate_if_released, bOne, txOne, hOne, flagsD1, windowSpend,
        anyBelowThreshold, Defense.threshold, Defense.target_rate,
        Defense.average_historical_send_amount, Defense.average_count_per_day,
        Defense.defense_tx, listMean, MAX_TX_AMOUNT, List.filter, List.dedup,
        List.pwFilter]) h1
  have h3 : Reaches bOne ⟨32, [{ txOne with day := 31 }]⟩ := Reaches.nextDay _ h2
  have h := budget_cap_invariant bOne (by norm_num [bOne]) _ h3
  exact ⟨h.1 32 le_rfl, h.2 40⟩

end DeadReckoning
